import Mathlib

/-!
Verification of the Waflens audit-log viewer core against its specification.

The development shallowly embeds the Rust sources:
  * `src/parser.rs` — boundary-driven segmentation of the audit log into
    `AuditEntry` records, grouping into `AuditGroup` chains, aggregation and
    sorting;
  * `src/app.rs` — the interactive navigation state (`App`) with selection,
    scrolling, live search, click handling and the detail view;
  * `src/ipapi.rs` — the `/24`-subnet keyed enrichment cache.

Machine strings are modelled as Lean `String` (a wrapper around `List Char`);
`usize` arithmetic is modelled on `Nat`, with Rust `saturating_sub` mapped to
truncated `Nat` subtraction.  The regular expressions of the source are
hand-compiled to character-list matchers; each pattern used by the source is
deterministic (every greedy repetition is followed by a character that cannot
occur inside it), so maximal munch plus a leftmost scan reproduces the regex
engine's leftmost match semantics exactly.  Character classes and case
conversion are modelled on ASCII, which covers every literal the source
matches against.
-/

/-! ## Character classes and string primitives -/

/-- ASCII decimal digit, the `\d` class of the source's patterns. -/
def isDigitChar (c : Char) : Bool := '0' ≤ c && c ≤ '9'

/-- ASCII uppercase letter, the `[A-Z]` class. -/
def isUpperChar (c : Char) : Bool := 'A' ≤ c && c ≤ 'Z'

/-- ASCII lowercase letter, the `[a-z]` class. -/
def isLowerChar (c : Char) : Bool := 'a' ≤ c && c ≤ 'z'

/-- ASCII letter, the `[A-Za-z]` class. -/
def isAlphaChar (c : Char) : Bool := isUpperChar c || isLowerChar c

/-- ASCII alphanumeric, the `[a-zA-Z0-9]` class of the boundary marker. -/
def isAlnumChar (c : Char) : Bool := isAlphaChar c || isDigitChar c

/-- ASCII whitespace, modelling Rust's `char::is_whitespace` / regex `\s`
on the ASCII range (space, tab, newline, vertical tab, form feed, return). -/
def isWsChar (c : Char) : Bool :=
  c = ' ' || c = '\t' || c = '\n' || c = '\x0b' || c = '\x0c' || c = '\r'

/-- ASCII lowercase conversion, modelling `str::to_lowercase` on ASCII. -/
def toLowerChar (c : Char) : Char :=
  if isUpperChar c then Char.ofNat (c.toNat + 32) else c

/-- Lowercase a character list. -/
def lowerStr (l : List Char) : List Char := l.map toLowerChar

/-- `str::trim`: strip leading and trailing whitespace. -/
def trimStr (l : List Char) : List Char :=
  ((l.dropWhile isWsChar).reverse.dropWhile isWsChar).reverse

/-- `str::trim_end_matches('\r')`: strip trailing carriage returns. -/
def dropTrailingCR (l : List Char) : List Char :=
  (l.reverse.dropWhile (fun c => c = '\r')).reverse

/-- `str::contains(needle)`: substring containment. -/
def containsSub : List Char → List Char → Bool
  | [], needle => needle.isEmpty
  | c :: hay, needle => needle.isPrefixOf (c :: hay) || containsSub hay needle

/-- `str::split_once(sep)`: split at the first occurrence of `sep`,
returning the parts before and after it. -/
def splitOnceChar (sep : Char) : List Char → Option (List Char × List Char)
  | [] => none
  | c :: l =>
    if c = sep then some ([], l)
    else (splitOnceChar sep l).map (fun p => (c :: p.1, p.2))

/-- Decimal value of a digit string, as in `str::parse` for integers. -/
def digitsToNat (l : List Char) : Nat :=
  l.foldl (fun n c => n * 10 + (c.toNat - 48)) 0

/-! ## Hand-compiled regular expression matchers

Each `…At` function decides whether its pattern matches at the head of the
input, returning the capture; `scanMatch` turns that into the leftmost match
anywhere in the input, which is what `Regex::captures` computes. -/

/-- Leftmost match: try the head-anchored matcher at every suffix,
left to right, and return the first success. -/
def scanMatch (f : List Char → Option α) : List Char → Option α
  | [] => f []
  | c :: l =>
    match f (c :: l) with
    | some r => some r
    | none => scanMatch f (l : List Char)

/-- Head-anchored match of the boundary pattern `--([a-zA-Z0-9]+)-([A-Z])--`,
returning the first capture (the chain id token). -/
def boundaryAt (l : List Char) : Option (List Char) :=
  match l with
  | '-' :: '-' :: rest =>
    let tok := rest.takeWhile isAlnumChar
    if tok.isEmpty then none
    else
      match rest.dropWhile isAlnumChar with
      | '-' :: u :: '-' :: '-' :: _ => if isUpperChar u then some tok else none
      | _ => none
  | _ => none

/-- First match of the boundary pattern anywhere in a line
(`boundary_re.captures(line)` with capture group 1). -/
def matchBoundaryLine (l : List Char) : Option (List Char) := scanMatch boundaryAt l

/-- Not a carriage return or newline: the `[^\r\n]` class. -/
def notCRLF (c : Char) : Bool := !(c = '\r' || c = '\n')

/-- Head-anchored match of `(?i)Host:\s*([^\r\n]+)`.  After the greedy `\s*`,
either a non-whitespace character follows (then the capture is the maximal
`[^\r\n]+` run from there), or the input ends inside the whitespace run and
the regex backtracks to the last whitespace character that is not `\r`/`\n`. -/
def hostAt (l : List Char) : Option (List Char) :=
  match l with
  | c1 :: c2 :: c3 :: c4 :: c5 :: rest =>
    if toLowerChar c1 = 'h' && toLowerChar c2 = 'o' && toLowerChar c3 = 's'
        && toLowerChar c4 = 't' && c5 = ':' then
      match rest.dropWhile isWsChar with
      | [] =>
        match rest.reverse.dropWhile (fun c => c = '\r' || c = '\n') with
        | c :: _ => some [c]
        | [] => none
      | c :: r' => some ((c :: r').takeWhile notCRLF)
    else none
  | _ => none

/-- The character class `[\d/A-Za-z: +-]` of the client-address pattern. -/
def ipClassChar (c : Char) : Bool :=
  isDigitChar c || c = '/' || isAlphaChar c || c = ':' || c = ' ' || c = '+' || c = '-'

/-- Head-anchored match of `\[[\d/A-Za-z: +-]+\]\s+\S+\s+(\S+)`:
a bracketed timestamp, then two whitespace-separated tokens; the second
token (the client address) is captured. -/
def clientIpAt (l : List Char) : Option (List Char) :=
  match l with
  | '[' :: rest =>
    if (rest.takeWhile ipClassChar).isEmpty then none
    else
      match rest.dropWhile ipClassChar with
      | ']' :: r1 =>
        if (r1.takeWhile isWsChar).isEmpty then none
        else
          let r2 := r1.dropWhile isWsChar
          if (r2.takeWhile (fun c => !isWsChar c)).isEmpty then none
          else
            let r3 := r2.dropWhile (fun c => !isWsChar c)
            if (r3.takeWhile isWsChar).isEmpty then none
            else
              let r4 := r3.dropWhile isWsChar
              let tok := r4.takeWhile (fun c => !isWsChar c)
              if tok.isEmpty then none else some tok
      | _ => none
  | _ => none

/-- Head-anchored match of `\[file "([^"]+)"\]`, capturing the path. -/
def fileAt (l : List Char) : Option (List Char) :=
  match l with
  | '[' :: 'f' :: 'i' :: 'l' :: 'e' :: ' ' :: '"' :: rest =>
    let p := rest.takeWhile (fun c => !(c = '"'))
    if p.isEmpty then none
    else
      match rest.dropWhile (fun c => !(c = '"')) with
      | '"' :: ']' :: _ => some p
      | _ => none
  | _ => none

/-- Head-anchored match of `HTTP/\d\.\d\s+(\d{3})`, capturing the
three status digits. -/
def httpStatusAt (l : List Char) : Option (List Char) :=
  match l with
  | 'H' :: 'T' :: 'T' :: 'P' :: '/' :: d1 :: '.' :: d2 :: rest =>
    if isDigitChar d1 && isDigitChar d2 then
      if (rest.takeWhile isWsChar).isEmpty then none
      else
        match rest.dropWhile isWsChar with
        | a :: b :: c :: _ =>
          if isDigitChar a && isDigitChar b && isDigitChar c then some [a, b, c] else none
        | _ => none
    else none
  | _ => none

/-- Consume exactly `n` characters satisfying `p`, returning them and the rest. -/
def takeCount (p : Char → Bool) : Nat → List Char → Option (List Char × List Char)
  | 0, l => some ([], l)
  | _ + 1, [] => none
  | n + 1, c :: l =>
    if p c then (takeCount p n l).map (fun q => (c :: q.1, q.2)) else none

/-- Consume one expected character. -/
def expectCh (ch : Char) : List Char → Option (List Char)
  | c :: l => if c = ch then some l else none
  | [] => none

/-- Head-anchored match of the timestamp pattern
`\[(\d{2}/[A-Za-z]{3}/\d{4}:\d{2}:\d{2}:\d{2} [+-]\d{4})\]`,
capturing the bracket contents. -/
def tsAt (l : List Char) : Option (List Char) := do
  let r0 ← match l with | '[' :: r0 => some r0 | _ => none
  let (dd, r1) ← takeCount isDigitChar 2 r0
  let r2 ← expectCh '/' r1
  let (mon, r3) ← takeCount isAlphaChar 3 r2
  let r4 ← expectCh '/' r3
  let (yy, r5) ← takeCount isDigitChar 4 r4
  let r6 ← expectCh ':' r5
  let (hh, r7) ← takeCount isDigitChar 2 r6
  let r8 ← expectCh ':' r7
  let (mi, r9) ← takeCount isDigitChar 2 r8
  let r10 ← expectCh ':' r9
  let (ss, r11) ← takeCount isDigitChar 2 r10
  let r12 ← expectCh ' ' r11
  let (sg, r13) ← match r12 with
    | c :: r => if c = '+' || c = '-' then some ([c], r) else none
    | [] => none
  let (zz, r14) ← takeCount isDigitChar 4 r13
  let _ ← expectCh ']' r14
  some (dd ++ '/' :: mon ++ '/' :: yy ++ ':' :: hh ++ ':' :: mi ++ ':' :: ss ++ ' ' :: sg ++ zz)

/-- Head-anchored match of `\[id "(\d+)"\]`, returning the captured digits
and the remainder of the input after the whole match (used to iterate
non-overlapping matches, as `captures_iter` does). -/
def ruleIdAt (l : List Char) : Option (List Char × List Char) :=
  match l with
  | '[' :: 'i' :: 'd' :: ' ' :: '"' :: rest =>
    if (rest.takeWhile isDigitChar).isEmpty then none
    else
      match rest.dropWhile isDigitChar with
      | '"' :: ']' :: rem => some (rest.takeWhile isDigitChar, rem)
      | _ => none
  | _ => none

theorem length_dropWhile_le (p : α → Bool) (l : List α) :
    (l.dropWhile p).length ≤ l.length := by
  induction l with
  | nil => simp [List.dropWhile]
  | cons c l ih =>
    rw [List.dropWhile]
    cases p c
    · simp
    · simp
      omega

theorem ruleIdAt_length {l ds rem : List Char} (h : ruleIdAt l = some (ds, rem)) :
    rem.length < l.length := by
  unfold ruleIdAt at h
  split at h
  case h_2 => exact absurd h (by simp)
  case h_1 _ rest =>
    split at h
    · exact absurd h (by simp)
    · split at h
      case h_1 _ _ rem' heq =>
        have h2 : (rest.dropWhile isDigitChar).length ≤ rest.length :=
          length_dropWhile_le _ _
        rw [heq] at h2
        simp only [Option.some.injEq, Prod.mk.injEq] at h
        obtain ⟨-, hrem⟩ := h
        subst hrem
        simp only [List.length_cons] at h2 ⊢
        omega
      case h_2 => exact absurd h (by simp)

/-- One scan step of `captures_iter` for `\[id "(\d+)"\]`: on a match, emit
the capture and continue after the match; otherwise advance one character.
The recursion is driven by a fuel argument so that the definition reduces by
evaluation; by `ruleIdAt_length` every step strictly shrinks the input, so
fuel `l.length` (as used by `allRuleIds`) never runs out. -/
def allRuleIdsAux : Nat → List Char → List (List Char)
  | 0, _ => []
  | fuel + 1, l =>
    match ruleIdAt l with
    | some (ds, rem) => ds :: allRuleIdsAux fuel rem
    | none =>
      match l with
      | [] => []
      | _ :: l' => allRuleIdsAux fuel l'

/-- All non-overlapping matches of `\[id "(\d+)"\]`, left to right
(`rule_id_re.captures_iter`). -/
def allRuleIds (l : List Char) : List (List Char) := allRuleIdsAux l.length l

example : matchBoundaryLine "--abc123-A--".data = some "abc123".data := by decide
example : matchBoundaryLine "x --abc-Z-- y".data = some "abc".data := by decide
example : matchBoundaryLine "--abc-a--".data = none := by decide
example : matchBoundaryLine "plain line".data = none := by decide
example : scanMatch hostAt "foo\nHost: example.com\r\nbar".data
    = some "example.com".data := by decide
example : (scanMatch hostAt "HOST:\texample.com \r\nbar".data).map
    (fun c => trimStr (dropTrailingCR c)) = some "example.com".data := by decide
example : scanMatch clientIpAt
    "[12/Mar/2024:10:11:12 +0000] ab12 203.0.113.7 5555".data
    = some "203.0.113.7".data := by decide
example : allRuleIds "x [id \"942100\"] y [id \"920350\"] [id \"942100\"]".data
    = ["942100".data, "920350".data, "942100".data] := by decide
example : scanMatch httpStatusAt "HTTP/1.1 403 Forbidden".data
    = some "403".data := by decide
example : scanMatch fileAt "[file \"/etc/rules.conf\"] x".data
    = some "/etc/rules.conf".data := by decide
example : scanMatch tsAt "[12/Mar/2024:10:11:12 +0000] zz".data
    = some "12/Mar/2024:10:11:12 +0000".data := by decide

/-! ## Records and record extraction (`parser.rs`) -/

/-- One extracted audit record (`AuditEntry` in `parser.rs`).  Timestamps are
UTC instants, modelled as integers. -/
structure AuditEntry where
  audit_id : String
  timestamp : Int
  domain : String
  rule_ids : List String
  client_ip : String
  http_status : Option Nat
  raw_content : String
  file_path : Option String
deriving DecidableEq, Repr

/-- `AuditLogParser::create_entry`: build a record from a chain id and the
accumulated text block, extracting every field with the matchers above.
`chronoParse` models `chrono`'s `DateTime::parse_from_str` with format
`%d/%b/%Y:%H:%M:%S %z` (an external-library parser whose numeric result no
claim inspects), and `now` models `Utc::now()`, substituted when the
timestamp is absent or unparseable. -/
def createEntry (chronoParse : String → Option Int) (now : Int)
    (audit_id : String) (content : String) : AuditEntry :=
  let cs := content.data
  { audit_id := audit_id
    timestamp := ((scanMatch tsAt cs).bind (fun s => chronoParse ⟨s⟩)).getD now
    domain := match scanMatch hostAt cs with
      | some cap => ⟨trimStr (dropTrailingCR cap)⟩
      | none => "unknown"
    rule_ids := (allRuleIds cs).map (fun d => (⟨d⟩ : String))
    client_ip := match scanMatch clientIpAt cs with
      | some t => ⟨t⟩
      | none => "0.0.0.0"
    http_status := (scanMatch httpStatusAt cs).map digitsToNat
    raw_content := content
    file_path := (scanMatch fileAt cs).map (fun p => (⟨p⟩ : String)) }

/-! ## Segmentation automaton (`parse_entries_with_loading`) -/

/-- The scan state of `parse_entries_with_loading`: the current chain id (if a
boundary has been seen), the accumulated block, and the records emitted so
far.  The progress-reporting calls of the source only draw the loading UI and
do not affect this state. -/
structure ParseState where
  current : Option String
  acc : List Char
  entries : List AuditEntry
deriving Repr

/-- Flush the accumulated block: if it is not blank, run `create_entry` on it
and append the result. -/
def flushAcc (chronoParse : String → Option Int) (now : Int)
    (id : String) (acc : List Char) (entries : List AuditEntry) : List AuditEntry :=
  if trimStr acc ≠ [] then entries ++ [createEntry chronoParse now id ⟨acc⟩] else entries

/-- One line of the segmentation scan.  A boundary line with a *different*
token than the current id flushes the block; a boundary line (same or new
token) is itself appended to the accumulator; any other line is appended only
once a boundary has been seen.  Lines are appended together with their `\n`
terminator, as the source's `push_str(&format!("{}\n", line))` does. -/
def parseStep (chronoParse : String → Option Int) (now : Int)
    (st : ParseState) (line : String) : ParseState :=
  match matchBoundaryLine line.data with
  | some tok =>
    let id : String := ⟨tok⟩
    let st1 :=
      match st.current with
      | some prev =>
        if id ≠ prev then
          { st with entries := flushAcc chronoParse now prev st.acc st.entries, acc := [] }
        else st
      | none => st
    { st1 with current := some id, acc := st1.acc ++ line.data ++ ['\n'] }
  | none =>
    if st.current.isSome then { st with acc := st.acc ++ line.data ++ ['\n'] } else st

/-- Final flush after the scan. -/
def parseFinish (chronoParse : String → Option Int) (now : Int)
    (st : ParseState) : List AuditEntry :=
  match st.current with
  | some id => flushAcc chronoParse now id st.acc st.entries
  | none => st.entries

/-- `parse_entries_with_loading`, as a function of the input's line sequence
(the source iterates `content.lines()`). -/
def parseEntriesList (chronoParse : String → Option Int) (now : Int)
    (lines : List String) : List AuditEntry :=
  parseFinish chronoParse now (lines.foldl (parseStep chronoParse now) ⟨none, [], []⟩)

/-! ## Chains (`AuditGroup`) and assembly -/

/-- A chain of records sharing one id (`AuditGroup` in `parser.rs`). -/
structure AuditGroup where
  base_id : String
  entries : List AuditEntry
  first_timestamp : Int
  domain : String
  client_ip : String
  http_status : Option Nat
  primary_rule_ids : List String
  file_path : Option String
deriving DecidableEq, Repr

/-- `AuditGroup::from_entries`.  The source indexes `entries[0]` and unwraps
the minimum timestamp; callers only ever pass non-empty buckets, and the
total model substitutes inert defaults on `[]` (never exercised by any
theorem below). -/
def AuditGroup.fromEntries (entries : List AuditEntry) : AuditGroup :=
  { base_id := (entries.head?.map (fun e => e.audit_id)).getD ""
    entries := entries
    first_timestamp :=
      match entries.map (fun e => e.timestamp) with
      | [] => 0
      | t :: ts => ts.foldl min t
    domain := (entries.head?.map (fun e => e.domain)).getD ""
    client_ip := (entries.head?.map (fun e => e.client_ip)).getD ""
    http_status := entries.findSome? (fun e => e.http_status)
    primary_rule_ids :=
      entries.foldl
        (fun acc e =>
          e.rule_ids.foldl (fun acc r => if r ∈ acc then acc else acc ++ [r]) acc)
        []
    file_path := entries.findSome? (fun e => e.file_path) }

/-- Grouping of records by chain id (`parse_log_file` step 4).  The source
pushes each record into a `HashMap` bucket keyed by its `audit_id`; each
bucket therefore holds exactly the records with that id, in scan order, and
the buckets are enumerated in some arbitrary order, modelled here by the
order of first appearance. -/
def groupEntries (entries : List AuditEntry) : List AuditGroup :=
  ((entries.map (fun e => e.audit_id)).dedup).map
    (fun k => AuditGroup.fromEntries (entries.filter (fun e => e.audit_id == k)))

/-- Sorting of chains, most recent `first_timestamp` first
(`parse_log_file` step 5). -/
def sortGroups (groups : List AuditGroup) : List AuditGroup :=
  groups.mergeSort (fun a b => b.first_timestamp ≤ a.first_timestamp)

/-- The full assembly pipeline of `parse_log_file` from the decoded line
sequence: segment and extract, group, sort.  (Reading and UTF-8-lossy
decoding of the file, and the loading-screen draws, precede this in the
source and do not touch the record data.) -/
def parseGroups (chronoParse : String → Option Int) (now : Int)
    (lines : List String) : List AuditGroup :=
  sortGroups (groupEntries (parseEntriesList chronoParse now lines))

/-! ## Search-query evaluation (`App::matches_search`) -/

/-- `App::matches_all_fields`: OR-combined substring match of the query over
domain (lowercased), client address, base chain id (lowercased), every rule
id, and the stringified HTTP status. -/
def matchesAllFields (g : AuditGroup) (query : List Char) : Bool :=
  containsSub (lowerStr g.domain.data) query
    || containsSub g.client_ip.data query
    || containsSub (lowerStr g.base_id.data) query
    || g.primary_rule_ids.any (fun i => containsSub i.data query)
    || (match g.http_status with
        | some s => containsSub (Nat.repr s).data query
        | none => false)

/-- `App::matches_search`: lowercase the query, and if it splits as
`token:value` with a recognized field token, restrict the match to that field;
otherwise match all fields. -/
def matchesSearch (query : String) (g : AuditGroup) : Bool :=
  let q := lowerStr query.data
  match splitOnceChar ':' q with
  | some (tok, value) =>
    let t := trimStr tok
    if t = "domain".data then
      containsSub (lowerStr g.domain.data) (trimStr value)
    else if t = "ip".data then
      containsSub g.client_ip.data (trimStr value)
    else if t = "rule".data ∨ t = "ruleid".data ∨ t = "id".data then
      g.primary_rule_ids.any (fun i => containsSub i.data (trimStr value))
    else if t = "auditid".data then
      containsSub (lowerStr g.base_id.data) (trimStr value)
    else if t = "status".data ∨ t = "http".data then
      match g.http_status with
      | some s => containsSub (Nat.repr s).data (trimStr value)
      | none => false
    else matchesAllFields g q
  | none => matchesAllFields g q

/-! ## Enrichment cache (`ipapi.rs`) -/

/-- Rust's `Ipv4Addr` parser: exactly four dot-separated decimal octets,
each without leading zeros and at most 255. -/
def parseOctet (s : List Char) : Option Nat :=
  match s with
  | [] => none
  | c :: rest =>
    if (c :: rest).all isDigitChar && !(c = '0' && rest ≠ []) then
      let n := digitsToNat (c :: rest)
      if n ≤ 255 && (c :: rest).length ≤ 3 then some n else none
    else none

/-- `ip.parse::<Ipv4Addr>()`: the four octets on success. -/
def parseIpv4 (l : List Char) : Option (Nat × Nat × Nat × Nat) :=
  match (l.splitOn '.').map parseOctet with
  | [some a, some b, some c, some d] => some (a, b, c, d)
  | _ => none

/-- Decimal formatting of the `/24` network address,
`format!("{}.{}.{}.0", o0, o1, o2)`. -/
def ipv4KeyStr (a b c : Nat) : String :=
  Nat.repr a ++ "." ++ Nat.repr b ++ "." ++ Nat.repr c ++ ".0"

/-- The cache key of `IpApiCache::get_ip_info`: `get_subnet_24` zeroes the
last octet of a parseable IPv4 address; IPv6 addresses and unparseable
strings both key by the literal address (`get_subnet_24` returns the input
string for IPv6 and `None` — replaced by the input via `unwrap_or_else` —
otherwise). -/
def cacheKey (ip : String) : String :=
  match parseIpv4 ip.data with
  | some (a, b, c, _) => ipv4KeyStr a b c
  | none => ip

/-- Association-list lookup, modelling `HashMap::get`. -/
def lookupCache (cache : List (String × String)) (k : String) : Option String :=
  (cache.find? (fun p => p.1 == k)).map (fun p => p.2)

/-- Result of one `get_ip_info` call: the returned value or transport error,
the cache afterwards, and whether an external fetch was performed. -/
structure IpLookupResult where
  result : Except String String
  cache : List (String × String)
  fetched : Bool

/-- `IpApiCache::get_ip_info`: derive the key; on a cache hit return the
stored blob with no external call; on a miss perform the fetch and store the
blob under the key on success (a transport/parse error propagates before the
insert).  `fetch` models the blocking HTTP request plus JSON decode and
pretty-print, keyed by the derived cache key. -/
def getIpInfo (fetch : String → Except String String)
    (cache : List (String × String)) (ip : String) : IpLookupResult :=
  let key := cacheKey ip
  match lookupCache cache key with
  | some v => ⟨Except.ok v, cache, false⟩
  | none =>
    match fetch key with
    | Except.ok blob => ⟨Except.ok blob, (key, blob) :: cache, true⟩
    | Except.error e => ⟨Except.error e, cache, true⟩

/-! ## Navigation state (`app.rs`) -/

/-- The two top-level views. -/
inductive AppView where
  | TableView
  | DetailView
deriving DecidableEq, Repr

/-- The interactive state (`App` in `app.rs`).  `Instant`s are modelled as
millisecond counts; the cached `table_area` rectangle is render geometry
owned by the UI layer and is not part of the model. -/
structure App where
  audit_groups : List AuditGroup
  filtered_groups : List Nat
  selected_index : Nat
  scroll_offset : Nat
  search_query : String
  search_mode : Bool
  current_view : AppView
  detail_scroll : Nat
  should_quit : Bool
  log_path : String
  last_click_time : Option Nat
  last_click_row : Option Nat
  ip_api_enabled : Bool
  ip_api_cache : List (String × String)
  current_ip_info : Option String

/-- `App::new` after a successful parse: the initial load.  The filtered list
is the identity index sequence `(0..len).collect()`. -/
def initApp (groups : List AuditGroup) (path : String) (ipApiEnabled : Bool) : App :=
  { audit_groups := groups
    filtered_groups := List.range groups.length
    selected_index := 0
    scroll_offset := 0
    search_query := ""
    search_mode := false
    current_view := AppView.TableView
    detail_scroll := 0
    should_quit := false
    log_path := path
    last_click_time := none
    last_click_row := none
    ip_api_enabled := ipApiEnabled
    ip_api_cache := []
    current_ip_info := none }

/-- `App::selected_group`. -/
def selectedGroup (s : App) : Option AuditGroup :=
  (s.filtered_groups.get? s.selected_index).bind (fun idx => s.audit_groups.get? idx)

/-- `App::apply_search`: rebuild the filtered index list from the current
query and reset selection and scroll to 0. -/
def applySearch (s : App) : App :=
  { s with
    filtered_groups :=
      if s.search_query = "" then List.range s.audit_groups.length
      else ((s.audit_groups.enum.filter (fun p => matchesSearch s.search_query p.2)).map
        (fun p => p.1))
    selected_index := 0
    scroll_offset := 0 }

/-- `App::refresh` after a successful re-parse producing `newGroups`: replace
the chain list, re-apply the search, then clamp the saved selection and
scroll into the new bounds. -/
def refresh (newGroups : List AuditGroup) (s : App) : App :=
  let savedSel := s.selected_index
  let savedScroll := s.scroll_offset
  let s1 := applySearch
    { s with audit_groups := newGroups, filtered_groups := List.range newGroups.length }
  let maxIdx := s1.filtered_groups.length - 1
  { s1 with selected_index := min savedSel maxIdx, scroll_offset := min savedScroll maxIdx }

/-- `App::move_selection_up`. -/
def moveSelectionUp (s : App) : App :=
  if 0 < s.selected_index then
    let sel := s.selected_index - 1
    if sel < s.scroll_offset then { s with selected_index := sel, scroll_offset := sel }
    else { s with selected_index := sel }
  else s

/-- `App::move_selection_down`.  (`visible_height - 1` is an unchecked `usize`
subtraction in the source; every caller passes a positive height.) -/
def moveSelectionDown (vh : Nat) (s : App) : App :=
  if s.selected_index < s.filtered_groups.length - 1 then
    let sel := s.selected_index + 1
    if s.scroll_offset + vh ≤ sel then
      { s with selected_index := sel, scroll_offset := sel - (vh - 1) }
    else { s with selected_index := sel }
  else s

/-- `App::page_up`: saturating jumps of both cursors. -/
def pageUp (ps : Nat) (s : App) : App :=
  { s with selected_index := s.selected_index - ps, scroll_offset := s.scroll_offset - ps }

/-- `App::page_down`: the selection is clamped to the last filtered index,
but the scroll offset is incremented without an upper clamp. -/
def pageDown (ps : Nat) (s : App) : App :=
  { s with
    selected_index := min (s.selected_index + ps) (s.filtered_groups.length - 1)
    scroll_offset := s.scroll_offset + ps }

/-- `App::add_search_char`. -/
def addSearchChar (c : Char) (s : App) : App :=
  applySearch { s with search_query := s.search_query.push c }

/-- `App::remove_search_char` (`String::pop`). -/
def removeSearchChar (s : App) : App :=
  applySearch { s with search_query := ⟨s.search_query.data.dropLast⟩ }

/-- `App::clear_search`: empty the query and restore the identity filtered
list directly. -/
def clearSearch (s : App) : App :=
  { s with
    search_query := ""
    filtered_groups := List.range s.audit_groups.length
    selected_index := 0
    scroll_offset := 0 }

/-- `App::enter_search_mode`. -/
def enterSearchMode (s : App) : App := { s with search_mode := true }

/-- `App::exit_search_mode`. -/
def exitSearchMode (s : App) : App := { s with search_mode := false }

/-- `App::show_detail_view`: switch view, reset the detail scroll, and (when
enabled and a chain is selected) run the enrichment lookup, keeping the
successful blob or `None` on error (`.ok()`). -/
def showDetailView (fetch : String → Except String String) (s : App) : App :=
  let s1 := { s with current_view := AppView.DetailView, detail_scroll := 0 }
  if s1.ip_api_enabled then
    match selectedGroup s1 with
    | some g =>
      let r := getIpInfo fetch s1.ip_api_cache g.client_ip
      { s1 with current_ip_info := r.result.toOption, ip_api_cache := r.cache }
    | none => s1
  else { s1 with current_ip_info := none }

/-- `App::show_table_view`: switch back to the table; everything else,
including the cached enrichment info, is kept. -/
def showTableView (s : App) : App :=
  { s with current_view := AppView.TableView }

/-- `App::handle_click`: detect a double click (same row, strictly less than
500 ms since the last click), move the selection to the clicked row with the
scroll-snapping rule, record the click, and return the "open detail" flag. -/
def handleClick (now : Nat) (row vh : Nat) (s : App) : App × Bool :=
  let dbl :=
    match s.last_click_time, s.last_click_row with
    | some t, some r => r == row && now - t < 500
    | _, _ => false
  let s1 := { s with selected_index := row }
  let s2 :=
    if s1.selected_index < s1.scroll_offset then
      { s1 with scroll_offset := s1.selected_index }
    else if s1.scroll_offset + vh ≤ s1.selected_index then
      { s1 with scroll_offset := s1.selected_index - (vh - 1) }
    else s1
  ({ s2 with last_click_time := some now, last_click_row := some row }, dbl)

/-! ## Generic bridging lemmas -/

theorem strMk_data (s : String) : (⟨s.data⟩ : String) = s := by
  cases s
  rfl

theorem push_data (s : String) (c : Char) : (s.push c).data = s.data ++ [c] := by
  cases s
  rfl

theorem strAppend_data (s t : String) : (s ++ t).data = s.data ++ t.data :=
  String.data_append s t

/-! ## Claim C9 -/

/-- Claim C9: exiting detail view (`show_table_view`) modifies only the
current-view flag; selection, scroll, query, search mode, the filtered list,
the detail scroll, the owned chain list, the cached enrichment info, and all
remaining state are unchanged. -/
theorem claim_C9_show_table_view_frame (s : App) :
    (showTableView s).selected_index = s.selected_index ∧
    (showTableView s).scroll_offset = s.scroll_offset ∧
    (showTableView s).search_query = s.search_query ∧
    (showTableView s).search_mode = s.search_mode ∧
    (showTableView s).filtered_groups = s.filtered_groups ∧
    (showTableView s).detail_scroll = s.detail_scroll ∧
    (showTableView s).audit_groups = s.audit_groups ∧
    (showTableView s).current_ip_info = s.current_ip_info ∧
    (showTableView s).last_click_time = s.last_click_time ∧
    (showTableView s).last_click_row = s.last_click_row ∧
    (showTableView s).ip_api_cache = s.ip_api_cache ∧
    (showTableView s).ip_api_enabled = s.ip_api_enabled ∧
    (showTableView s).should_quit = s.should_quit ∧
    (showTableView s).log_path = s.log_path ∧
    (showTableView s).current_view = AppView.TableView :=
  ⟨rfl, rfl, rfl, rfl, rfl, rfl, rfl, rfl, rfl, rfl, rfl, rfl, rfl, rfl, rfl⟩

/-! ## Claim C6 -/

/-- Claim C6: `handle_click(row, viewport_height)` returns the "open detail"
signal exactly when a previous click was recorded on the same row strictly
less than 500 ms before; in particular a second click on the same row `d` ms
later opens the detail view iff `d < 500`, and never after 600 ms. -/
theorem claim_C6_double_click (s : App) (row vh now t1 d : Nat) :
    ((handleClick now row vh s).2 = true ↔
      (s.last_click_row = some row ∧ ∃ t, s.last_click_time = some t ∧ now - t < 500)) ∧
    ((handleClick (t1 + d) row vh (handleClick t1 row vh s).1).2 = true ↔ d < 500) ∧
    ((handleClick (t1 + 600) row vh (handleClick t1 row vh s).1).2 = false) := by
  refine ⟨?_, ?_, ?_⟩
  · cases ht : s.last_click_time <;> cases hr : s.last_click_row <;>
      simp [handleClick, ht, hr, Nat.sub_lt_iff_lt_add]
  · simp [handleClick]
  · simp [handleClick]

/-! ## Claim C5 -/

/-- Outcome required of every query mutation: selection and scroll reset to
0, the filtered list agrees with an immediate re-evaluation of the filter on
the new query, and an empty query yields the identity index sequence. -/
def QueryEditOutcome (s' : App) : Prop :=
  s'.selected_index = 0 ∧ s'.scroll_offset = 0 ∧
  s'.filtered_groups =
    (if s'.search_query = "" then List.range s'.audit_groups.length
     else ((s'.audit_groups.enum.filter (fun p => matchesSearch s'.search_query p.2)).map
       (fun p => p.1))) ∧
  (s'.search_query = "" → s'.filtered_groups = List.range s'.audit_groups.length)

/-- Claim C5: after appending a character, removing one, or clearing the
query, the filter is re-evaluated immediately, selection and scroll are 0,
and an empty resulting query gives the identity index list over all chains. -/
theorem claim_C5_query_edits (s : App) (c : Char) :
    QueryEditOutcome (addSearchChar c s) ∧
    QueryEditOutcome (removeSearchChar s) ∧
    QueryEditOutcome (clearSearch s) := by
  refine ⟨⟨rfl, rfl, ?_, ?_⟩, ⟨rfl, rfl, ?_, ?_⟩, ⟨rfl, rfl, ?_, ?_⟩⟩
  · rfl
  · intro h
    simp only [addSearchChar, applySearch] at h ⊢
    rw [if_pos h]
  · rfl
  · intro h
    simp only [removeSearchChar, applySearch] at h ⊢
    rw [if_pos h]
  · simp [clearSearch, applySearch]
  · intro _
    rfl

/-! ## Claim C8 -/

/-- Claim C8: entering detail view never fails; if the enrichment lookup for
the selected chain's client address returns a transport error, the cached
enrichment result becomes `none` ("no info available"), the error is not
propagated, and the transition to the detail view with `detail_scroll = 0`
still completes. -/
theorem claim_C8_detail_view_error (fetch : String → Except String String)
    (s : App) (g : AuditGroup) (e : String)
    (hen : s.ip_api_enabled = true)
    (hsel : selectedGroup s = some g)
    (herr : (getIpInfo fetch s.ip_api_cache g.client_ip).result = Except.error e) :
    (showDetailView fetch s).current_view = AppView.DetailView ∧
    (showDetailView fetch s).detail_scroll = 0 ∧
    (showDetailView fetch s).current_ip_info = none := by
  obtain ⟨ag, fg, si, so, sq, sm, cv, ds, qd, lp, lct, lcr, en, cache, info⟩ := s
  simp only at hen
  subst hen
  have hs2 : selectedGroup
      (⟨ag, fg, si, so, sq, sm, AppView.DetailView, 0, qd, lp, lct, lcr,
        true, cache, info⟩ : App) = some g := hsel
  simp only [showDetailView, if_true, hs2]
  have hopt : (getIpInfo fetch cache g.client_ip).result.toOption = none := by
    rw [show (getIpInfo fetch cache g.client_ip).result = Except.error e from herr]
    rfl
  exact ⟨trivial, trivial, hopt⟩

/-- Transport that always fails, for exercising the error path. -/
def c8FetchErr : String → Except String String := fun _ => Except.error "boom"

/-- A concrete chain for the C8 witness. -/
def c8Group : AuditGroup :=
  { base_id := "abc"
    entries := []
    first_timestamp := 0
    domain := "example.com"
    client_ip := "x"
    http_status := none
    primary_rule_ids := []
    file_path := none }

/-- Concrete state for the C8 witness: one chain, enrichment enabled. -/
def c8State : App := initApp [c8Group] "p" true

theorem claim_C8_witness :
    (showDetailView c8FetchErr c8State).current_view = AppView.DetailView ∧
    (showDetailView c8FetchErr c8State).detail_scroll = 0 ∧
    (showDetailView c8FetchErr c8State).current_ip_info = none :=
  claim_C8_detail_view_error c8FetchErr c8State c8Group "boom" rfl (by decide) rfl

/-! ## Claim C1 -/

/-- The navigation-state invariant of the spec:
`0 ≤ selection < max(1, |filtered|)` and `scroll_offset ≤ selection`
(the lower bounds are automatic on `Nat`). -/
def NavInvariant (s : App) : Prop :=
  s.selected_index < max 1 s.filtered_groups.length ∧
  s.scroll_offset ≤ s.selected_index

/-- Claim C1 counterexample: the freshly loaded (hence reachable) state over
an empty chain list satisfies the invariant, but `page_down` with the
caller's page size 20 leaves `scroll_offset = 20 > 0 = selected_index`:
`page_down` increments the scroll offset without any clamp, so the claim
that *every* operation preserves the invariant is false. -/
theorem claim_C1_counterexample :
    NavInvariant (initApp [] "log" false) ∧
    ¬ NavInvariant (pageDown 20 (initApp [] "log" false)) := by
  constructor
  · exact ⟨by decide, by decide⟩
  · intro h
    exact absurd h.2 (by decide)

/-- Claim C1, amended: every navigation operation except `page_down`
preserves the invariant (`move_selection_down` and `handle_click` under the
callers' guarantees of a positive viewport height, and a clicked row inside
the filtered bounds); `page_down` preserves the selection bound
`selected < max(1, |filtered|)` but can leave `scroll_offset` above
`selected_index`, as its scroll increment is unclamped. -/
theorem claim_C1_amended (s : App) (hInv : NavInvariant s)
    (c : Char) (gs : List AuditGroup) (path : String) (en : Bool)
    (fetch : String → Except String String) (row vh ps now : Nat) :
    NavInvariant (initApp gs path en) ∧
    NavInvariant (refresh gs s) ∧
    NavInvariant (addSearchChar c s) ∧
    NavInvariant (removeSearchChar s) ∧
    NavInvariant (clearSearch s) ∧
    NavInvariant (enterSearchMode s) ∧
    NavInvariant (exitSearchMode s) ∧
    NavInvariant (moveSelectionUp s) ∧
    (0 < vh → NavInvariant (moveSelectionDown vh s)) ∧
    NavInvariant (pageUp ps s) ∧
    (pageDown ps s).selected_index < max 1 (pageDown ps s).filtered_groups.length ∧
    (0 < vh → row < max 1 s.filtered_groups.length →
      NavInvariant ((handleClick now row vh s).1)) ∧
    NavInvariant (showDetailView fetch s) ∧
    NavInvariant (showTableView s) := by
  obtain ⟨h1, h2⟩ := hInv
  refine ⟨?_, ?_, ?_, ?_, ?_, ?_, ?_, ?_, ?_, ?_, ?_, ?_, ?_, ?_⟩
  · exact ⟨by simp [initApp], by simp [initApp]⟩
  · simp only [NavInvariant, refresh, applySearch]
    constructor
    · dsimp only
      omega
    · dsimp only
      omega
  · exact ⟨by simp [addSearchChar, applySearch], by simp [addSearchChar, applySearch]⟩
  · exact ⟨by simp [removeSearchChar, applySearch], by simp [removeSearchChar, applySearch]⟩
  · exact ⟨by simp [clearSearch], by simp [clearSearch]⟩
  · exact ⟨h1, h2⟩
  · exact ⟨h1, h2⟩
  · simp only [NavInvariant, moveSelectionUp]
    split
    · split
      · dsimp only
        omega
      · dsimp only
        omega
    · exact ⟨h1, h2⟩
  · intro hvh
    simp only [NavInvariant, moveSelectionDown]
    split
    · split
      · dsimp only
        omega
      · dsimp only
        omega
    · exact ⟨h1, h2⟩
  · simp only [NavInvariant, pageUp]
    omega
  · simp only [pageDown]
    omega
  · intro hvh hrow
    simp only [NavInvariant, handleClick]
    split
    · dsimp only
      omega
    · split
      · dsimp only
        omega
      · dsimp only
        omega
  · simp only [NavInvariant, showDetailView]
    split
    · split
      · dsimp only
        exact ⟨h1, h2⟩
      · exact ⟨h1, h2⟩
    · exact ⟨h1, h2⟩
  · exact ⟨h1, h2⟩

/-- Concrete instantiation of the amended C1 theorem on the reachable
initial state over one chain. -/
theorem claim_C1_amended_witness :
    NavInvariant (initApp [c8Group] "p" false) ∧
    NavInvariant (refresh [] (initApp [c8Group] "p" false)) ∧
    NavInvariant (moveSelectionDown 1 (initApp [c8Group] "p" false)) ∧
    NavInvariant ((handleClick 0 0 1 (initApp [c8Group] "p" false)).1) ∧
    (pageDown 20 (initApp [c8Group] "p" false)).selected_index <
      max 1 (pageDown 20 (initApp [c8Group] "p" false)).filtered_groups.length := by
  have h0 : NavInvariant (initApp [c8Group] "p" false) := ⟨by decide, by decide⟩
  have h := claim_C1_amended (initApp [c8Group] "p" false) h0 'a' [] "p" false
    c8FetchErr 0 1 20 0
  exact ⟨h0, h.2.1, h.2.2.2.2.2.2.2.2.1 (by decide), h.2.2.2.2.2.2.2.2.2.2.2.1 (by decide) (by decide),
    h.2.2.2.2.2.2.2.2.2.2.1⟩

/-! ## Claim C2 -/

/-- Modelled from the spec: "case-insensitive substring containment" —
both the field and the value are case-folded before the substring test.
Used to compare the claimed semantics with the code's `matches_search`. -/
def ciContains (hay needle : String) : Bool :=
  containsSub (lowerStr hay.data) (lowerStr needle.data)

/-- A chain whose client address contains uppercase letters (as an IPv6
address extracted from a log line can). -/
def c2Group : AuditGroup :=
  { base_id := "abc"
    entries := []
    first_timestamp := 0
    domain := "example.com"
    client_ip := "2001:DB8::1"
    http_status := some 404
    primary_rule_ids := ["942100"]
    file_path := none }

/-- Claim C2 counterexample: for the recognized token `ip`, the query
`ip:DB8` does *not* match a chain whose client address is `2001:DB8::1`,
although case-insensitive substring containment holds: `matches_search`
lowercases the whole query but compares it against the raw (unlowercased)
client-address field. -/
theorem claim_C2_counterexample :
    matchesSearch "ip:DB8" c2Group = false ∧
    ciContains c2Group.client_ip "DB8" = true := by
  constructor
  · decide
  · decide

theorem lowerStr_append (a b : List Char) :
    lowerStr (a ++ b) = lowerStr a ++ lowerStr b :=
  List.map_append toLowerChar a b

theorem splitOnceChar_append (sep : Char) (a b : List Char) (h : sep ∉ a) :
    splitOnceChar sep (a ++ sep :: b) = some (a, b) := by
  induction a with
  | nil => simp [splitOnceChar]
  | cons c a ih =>
    have hc : ¬(c = sep) := by
      intro hcs
      exact h (hcs ▸ List.mem_cons_self c a)
    have ha : sep ∉ a := fun hm => h (List.mem_cons_of_mem c hm)
    simp only [List.cons_append, splitOnceChar, if_neg hc, List.append_eq, ih ha]
    rfl

/-- Claim C2, amended: for a recognized-token query `token:value` (token
trimmed and case-folded), the match is restricted to the designated single
field, compared against the lowercased, trimmed value — case-insensitively
for `domain` and `auditid` (both sides lowercased) and for `status`/`http`
(decimal digits are case-invariant), but *case-sensitively on the field
side* for `ip` and `rule`/`ruleid`/`id`, whose raw field text must contain
the lowercased value. -/
theorem claim_C2_amended (g : AuditGroup) (tok v : String)
    (hc : (':' : Char) ∉ lowerStr tok.data) :
    (trimStr (lowerStr tok.data) = "domain".data →
      matchesSearch (tok ++ ":" ++ v) g =
        containsSub (lowerStr g.domain.data) (trimStr (lowerStr v.data))) ∧
    (trimStr (lowerStr tok.data) = "ip".data →
      matchesSearch (tok ++ ":" ++ v) g =
        containsSub g.client_ip.data (trimStr (lowerStr v.data))) ∧
    (trimStr (lowerStr tok.data) = "rule".data ∨
        trimStr (lowerStr tok.data) = "ruleid".data ∨
        trimStr (lowerStr tok.data) = "id".data →
      matchesSearch (tok ++ ":" ++ v) g =
        g.primary_rule_ids.any (fun i => containsSub i.data (trimStr (lowerStr v.data)))) ∧
    (trimStr (lowerStr tok.data) = "auditid".data →
      matchesSearch (tok ++ ":" ++ v) g =
        containsSub (lowerStr g.base_id.data) (trimStr (lowerStr v.data))) ∧
    (trimStr (lowerStr tok.data) = "status".data ∨
        trimStr (lowerStr tok.data) = "http".data →
      matchesSearch (tok ++ ":" ++ v) g =
        (match g.http_status with
         | some st => containsSub (Nat.repr st).data (trimStr (lowerStr v.data))
         | none => false)) := by
  have hdata : (tok ++ ":" ++ v).data = tok.data ++ ':' :: v.data := by
    rw [strAppend_data, strAppend_data]
    simp
  have hlow : lowerStr (tok.data ++ ':' :: v.data)
      = lowerStr tok.data ++ ':' :: lowerStr v.data := by
    simp only [lowerStr, List.map_append, List.map_cons]
    rfl
  have hsplit : splitOnceChar ':' (lowerStr (tok ++ ":" ++ v).data)
      = some (lowerStr tok.data, lowerStr v.data) := by
    rw [hdata, hlow]
    exact splitOnceChar_append ':' (lowerStr tok.data) (lowerStr v.data) hc
  refine ⟨?_, ?_, ?_, ?_, ?_⟩
  · intro ht
    simp only [matchesSearch, hsplit]
    rw [if_pos ht]
  · intro ht
    have h1 : ¬(trimStr (lowerStr tok.data) = "domain".data) := by
      rw [ht]
      decide
    simp only [matchesSearch, hsplit]
    rw [if_neg h1, if_pos ht]
  · intro ht
    have h1 : ¬(trimStr (lowerStr tok.data) = "domain".data) := by
      rcases ht with h | h | h <;> rw [h] <;> decide
    have h2 : ¬(trimStr (lowerStr tok.data) = "ip".data) := by
      rcases ht with h | h | h <;> rw [h] <;> decide
    simp only [matchesSearch, hsplit]
    rw [if_neg h1, if_neg h2, if_pos ht]
  · intro ht
    have h1 : ¬(trimStr (lowerStr tok.data) = "domain".data) := by
      rw [ht]
      decide
    have h2 : ¬(trimStr (lowerStr tok.data) = "ip".data) := by
      rw [ht]
      decide
    have h3 : ¬(trimStr (lowerStr tok.data) = "rule".data ∨
        trimStr (lowerStr tok.data) = "ruleid".data ∨
        trimStr (lowerStr tok.data) = "id".data) := by
      rw [ht]
      decide
    simp only [matchesSearch, hsplit]
    rw [if_neg h1, if_neg h2, if_neg h3, if_pos ht]
  · intro ht
    have h1 : ¬(trimStr (lowerStr tok.data) = "domain".data) := by
      rcases ht with h | h <;> rw [h] <;> decide
    have h2 : ¬(trimStr (lowerStr tok.data) = "ip".data) := by
      rcases ht with h | h <;> rw [h] <;> decide
    have h3 : ¬(trimStr (lowerStr tok.data) = "rule".data ∨
        trimStr (lowerStr tok.data) = "ruleid".data ∨
        trimStr (lowerStr tok.data) = "id".data) := by
      rcases ht with h | h <;> rw [h] <;> decide
    have h4 : ¬(trimStr (lowerStr tok.data) = "auditid".data) := by
      rcases ht with h | h <;> rw [h] <;> decide
    simp only [matchesSearch, hsplit]
    rw [if_neg h1, if_neg h2, if_neg h3, if_neg h4, if_pos ht]

/-- A chain for the C2 amended witness. -/
def c2wGroup : AuditGroup :=
  { base_id := "zz"
    entries := []
    first_timestamp := 0
    domain := "xFooY.example"
    client_ip := "9.9.9.9"
    http_status := none
    primary_rule_ids := []
    file_path := none }

theorem claim_C2_amended_witness :
    matchesSearch ("Domain" ++ ":" ++ " Foo ") c2wGroup =
      containsSub (lowerStr c2wGroup.domain.data) (trimStr (lowerStr " Foo ".data)) :=
  (claim_C2_amended c2wGroup "Domain" " Foo " (by decide)).1 (by decide)

/-! ## Claim C7 -/

/-- Claim C7: the cache key of an address is the `/24` network form (last
octet zeroed) when it parses as IPv4 and the literal address string
otherwise; a lookup whose key is stored returns the stored blob with no
external fetch; and the lookups for `203.0.113.10` and `203.0.113.200`
share the key `203.0.113.0` and cause only one external fetch across both
(the first fetch succeeding and storing its blob). -/
theorem claim_C7_subnet_cache :
    (∀ (ip : String) (a b c d : Nat), parseIpv4 ip.data = some (a, b, c, d) →
      cacheKey ip = ipv4KeyStr a b c) ∧
    (∀ ip : String, parseIpv4 ip.data = none → cacheKey ip = ip) ∧
    (cacheKey "203.0.113.10" = "203.0.113.0" ∧
      cacheKey "203.0.113.200" = "203.0.113.0") ∧
    (∀ (fetch : String → Except String String) (cache : List (String × String))
        (ip v : String), lookupCache cache (cacheKey ip) = some v →
      getIpInfo fetch cache ip = ⟨Except.ok v, cache, false⟩) ∧
    (∀ (fetch : String → Except String String) (blob : String),
        fetch "203.0.113.0" = Except.ok blob →
      (getIpInfo fetch [] "203.0.113.10").fetched = true ∧
      (getIpInfo fetch [] "203.0.113.10").result = Except.ok blob ∧
      (getIpInfo fetch (getIpInfo fetch [] "203.0.113.10").cache "203.0.113.200").fetched
        = false ∧
      (getIpInfo fetch (getIpInfo fetch [] "203.0.113.10").cache "203.0.113.200").result
        = Except.ok blob) := by
  refine ⟨?_, ?_, ⟨by decide, by decide⟩, ?_, ?_⟩
  · intro ip a b c d h
    unfold cacheKey
    rw [h]
  · intro ip h
    unfold cacheKey
    rw [h]
  · intro fetch cache ip v h
    simp only [getIpInfo, h]
  · intro fetch blob h
    have hk1 : cacheKey "203.0.113.10" = "203.0.113.0" := by decide
    have hk2 : cacheKey "203.0.113.200" = "203.0.113.0" := by decide
    have hmiss : lookupCache [] ("203.0.113.0" : String) = none := rfl
    have h1 : getIpInfo fetch [] "203.0.113.10"
        = ⟨Except.ok blob, [("203.0.113.0", blob)], true⟩ := by
      simp only [getIpInfo, hk1, hmiss, h]
    have hhit : lookupCache [("203.0.113.0", blob)] ("203.0.113.0" : String)
        = some blob := rfl
    have h2 : getIpInfo fetch [("203.0.113.0", blob)] "203.0.113.200"
        = ⟨Except.ok blob, [("203.0.113.0", blob)], false⟩ := by
      simp only [getIpInfo, hk2, hhit]
    rw [h1]
    exact ⟨rfl, rfl, by rw [h2], by rw [h2]⟩

/-- Concrete instantiation of C7 with an always-successful transport. -/
theorem claim_C7_witness :
    cacheKey "203.0.113.10" = ipv4KeyStr 203 0 113 ∧
    cacheKey "2001:db8::1" = "2001:db8::1" ∧
    getIpInfo (fun _ => Except.ok "B") [("k", "v")] "k"
      = ⟨Except.ok "v", [("k", "v")], false⟩ ∧
    (getIpInfo (fun _ => Except.ok "B") [] "203.0.113.10").fetched = true ∧
    (getIpInfo (fun _ => Except.ok "B")
      (getIpInfo (fun _ => Except.ok "B") [] "203.0.113.10").cache "203.0.113.200").fetched
      = false := by
  obtain ⟨p1, p2, -, p4, p5⟩ := claim_C7_subnet_cache
  refine ⟨p1 "203.0.113.10" 203 0 113 10 (by decide), p2 "2001:db8::1" (by decide),
    p4 (fun _ => Except.ok "B") [("k", "v")] "k" "v" (by decide), ?_, ?_⟩
  · exact (p5 (fun _ => Except.ok "B") "B" rfl).1
  · exact (p5 (fun _ => Except.ok "B") "B" rfl).2.2.1

/-! ## Claim C3 -/

theorem fromEntries_entries (l : List AuditEntry) :
    (AuditGroup.fromEntries l).entries = l := rfl

theorem flatten_filter_key_perm :
    ∀ (keys : List String) (l : List AuditEntry), keys.Nodup →
      (∀ e ∈ l, e.audit_id ∈ keys) →
      ((keys.map (fun k => l.filter (fun e => e.audit_id == k))).flatten).Perm l := by
  intro keys
  induction keys with
  | nil =>
    intro l _ hcov
    have hl : l = [] := by
      cases l with
      | nil => rfl
      | cons e t => exact absurd (hcov e (by simp)) (by simp)
    subst hl
    simp
  | cons k ks ih =>
    intro l hnd hcov
    have hknotin : k ∉ ks := (List.nodup_cons.mp hnd).1
    have hndks : ks.Nodup := (List.nodup_cons.mp hnd).2
    simp only [List.map_cons, List.flatten_cons]
    have hfeq : ∀ k' ∈ ks,
        l.filter (fun e => e.audit_id == k')
          = (l.filter (fun e => !(e.audit_id == k))).filter
              (fun e => e.audit_id == k') := by
      intro k' hk'
      rw [List.filter_filter]
      apply List.filter_congr
      intro e _
      cases hbe : (e.audit_id == k') with
      | false => rfl
      | true =>
        have hek : e.audit_id = k' := eq_of_beq hbe
        have hkk : ¬(k' = k) := fun hx => hknotin (hx ▸ hk')
        simp [hek, hkk]
    have hmap : ks.map (fun k' => l.filter (fun e => e.audit_id == k'))
        = ks.map (fun k' => (l.filter (fun e => !(e.audit_id == k))).filter
            (fun e => e.audit_id == k')) := by
      apply List.map_congr_left
      intro k' hk'
      exact hfeq k' hk'
    rw [hmap]
    have hcov' : ∀ e ∈ l.filter (fun e => !(e.audit_id == k)), e.audit_id ∈ ks := by
      intro e he
      have hmem := List.mem_of_mem_filter he
      have hne : (e.audit_id == k) = false := by
        have := List.of_mem_filter he
        simpa using this
      have : e.audit_id ∈ k :: ks := hcov e hmem
      cases List.mem_cons.mp this with
      | inl hx =>
        rw [hx] at hne
        simp at hne
      | inr hx => exact hx
    have ihl := ih (l.filter (fun e => !(e.audit_id == k))) hndks hcov'
    exact ((List.Perm.append_left _ ihl).trans
      (List.filter_append_perm (fun e => e.audit_id == k) l))

theorem groups_entries_perm (entries : List AuditEntry) :
    (((sortGroups (groupEntries entries)).map (fun g => g.entries)).flatten).Perm
      entries := by
  have hsort : (sortGroups (groupEntries entries)).Perm (groupEntries entries) :=
    List.mergeSort_perm _ _
  have h1 : ((sortGroups (groupEntries entries)).map (fun g => g.entries)).flatten.Perm
      (((groupEntries entries).map (fun g => g.entries)).flatten) :=
    (hsort.map _).flatten
  have h2 : (groupEntries entries).map (fun g => g.entries)
      = ((entries.map (fun e => e.audit_id)).dedup).map
          (fun k => entries.filter (fun e => e.audit_id == k)) := by
    unfold groupEntries
    rw [List.map_map]
    rfl
  refine h1.trans ?_
  rw [h2]
  exact flatten_filter_key_perm _ entries (List.nodup_dedup _)
    (fun e he => List.mem_dedup.mpr (List.mem_map_of_mem _ he))

/-- Claim C3: grouping partitions the extracted record list — the multiset
union of all chains' record sequences produced by the assembly pipeline
equals the segmented record list exactly, with no loss and no duplication. -/
theorem claim_C3_partition (chronoParse : String → Option Int) (now : Int)
    (lines : List String) :
    (((parseGroups chronoParse now lines).map (fun g => g.entries)).flatten).Perm
      (parseEntriesList chronoParse now lines) :=
  groups_entries_perm (parseEntriesList chronoParse now lines)

/-! ## Claim C4 -/

theorem c4_step (chronoParse : String → Option Int) (now : Int) (t : String)
    (st : ParseState) (line : String)
    (hl : matchBoundaryLine line.data = none ∨ matchBoundaryLine line.data = some t.data)
    (hcu : ∀ u, st.current = some u → u = t) :
    (parseStep chronoParse now st line).entries = st.entries ∧
    (∀ u, (parseStep chronoParse now st line).current = some u → u = t) := by
  obtain ⟨cur, acc, ent⟩ := st
  cases hm : matchBoundaryLine line.data with
  | none =>
    simp only [parseStep, hm]
    cases cur with
    | none =>
      constructor
      · simp
      · intro u hu
        simp at hu
    | some c =>
      constructor
      · simp
      · intro u hu
        simp at hu
        exact hu ▸ hcu c rfl
  | some tok =>
    have htok : tok = t.data := by
      rcases hl with h | h
      · rw [hm] at h
        exact absurd h (by simp)
      · rw [hm] at h
        exact Option.some.inj h
    subst htok
    simp only [parseStep, hm, strMk_data]
    cases cur with
    | none =>
      constructor
      · simp
      · intro u hu
        simp at hu
        exact hu.symm
    | some prev =>
      have hpt : prev = t := hcu prev rfl
      subst hpt
      constructor
      · simp
      · intro u hu
        simp at hu
        exact hu.symm

theorem c4_fold (chronoParse : String → Option Int) (now : Int) (t : String) :
    ∀ (lines : List String) (st : ParseState),
      (∀ l ∈ lines,
        matchBoundaryLine l.data = none ∨ matchBoundaryLine l.data = some t.data) →
      st.entries = [] → (∀ u, st.current = some u → u = t) →
      (lines.foldl (parseStep chronoParse now) st).entries = [] ∧
      (∀ u, (lines.foldl (parseStep chronoParse now) st).current = some u → u = t) := by
  intro lines
  induction lines with
  | nil =>
    intro st _ he hcu
    exact ⟨he, hcu⟩
  | cons line rest ih =>
    intro st hl he hcu
    have hstep := c4_step chronoParse now t st line (hl line (by simp)) hcu
    simp only [List.foldl_cons]
    exact ih (parseStep chronoParse now st line)
      (fun l hml => hl l (List.mem_cons_of_mem _ hml))
      (hstep.1.trans he) hstep.2

/-- Claim C4: a boundary-marker line whose captured token equals the current
chain id does not flush the accumulated block — the step only extends the
accumulator — and a whole input whose boundary markers all carry one token
`t` (interleaved with arbitrary non-boundary lines) produces at most one
record. -/
theorem claim_C4_same_token (chronoParse : String → Option Int) (now : Int) :
    (∀ (st : ParseState) (line t : String), st.current = some t →
      matchBoundaryLine line.data = some t.data →
      parseStep chronoParse now st line
        = { st with acc := st.acc ++ line.data ++ ['\n'] }) ∧
    (∀ (t : String) (lines : List String),
      (∀ l ∈ lines,
        matchBoundaryLine l.data = none ∨ matchBoundaryLine l.data = some t.data) →
      (parseEntriesList chronoParse now lines).length ≤ 1) := by
  constructor
  · intro st line t hc hm
    obtain ⟨cur, acc, ent⟩ := st
    simp only at hc
    subst hc
    simp [parseStep, hm, strMk_data]
  · intro t lines hl
    have hfold := c4_fold chronoParse now t lines ⟨none, [], []⟩ hl rfl
      (fun u hu => by simp at hu)
    unfold parseEntriesList parseFinish
    split
    · rw [hfold.1]
      unfold flushAcc
      split <;> simp
    · rw [hfold.1]
      simp

/-- Concrete instantiation of C4: a same-token boundary extends the block in
place, and a four-line log whose two boundary markers both carry `abc`
yields a single record. -/
theorem claim_C4_witness :
    parseStep (fun _ => none) 0 ⟨some "abc", "--abc-A--\n".data, []⟩ "--abc-Z--"
      = { (⟨some "abc", "--abc-A--\n".data, []⟩ : ParseState) with
          acc := "--abc-A--\n".data ++ "--abc-Z--".data ++ ['\n'] } ∧
    (parseEntriesList (fun _ => none) 0 ["--abc-A--", "x", "--abc-B--", "y"]).length
      ≤ 1 := by
  constructor
  · exact (claim_C4_same_token (fun _ => none) 0).1
      ⟨some "abc", "--abc-A--\n".data, []⟩ "--abc-Z--" "abc" rfl (by decide)
  · exact (claim_C4_same_token (fun _ => none) 0).2
      "abc" ["--abc-A--", "x", "--abc-B--", "y"] (by decide)

/-! ## Claim C10 -/

/-- The first line of a record's raw text (up to the first `\n`). -/
def firstLineChars (s : String) : List Char :=
  s.data.takeWhile (fun c => !(c == '\n'))

/-- What claim C10 asserts of one emitted record: non-blank raw text whose
first line is a boundary-marker line capturing the record's own chain id. -/
def GoodEntry (e : AuditEntry) : Prop :=
  trimStr e.raw_content.data ≠ [] ∧
  matchBoundaryLine (firstLineChars e.raw_content) = some e.audit_id.data

/-- Scan invariant: all emitted records are good; before any boundary the
accumulator is empty; once a chain id is current, the accumulator starts
with a full line whose boundary capture is that id. -/
def GoodState (st : ParseState) : Prop :=
  (∀ e ∈ st.entries, GoodEntry e) ∧
  (st.current = none → st.acc = []) ∧
  (∀ u, st.current = some u →
    ∃ ld rest, st.acc = ld ++ '\n' :: rest ∧ matchBoundaryLine ld = some u.data ∧
      ('\n' : Char) ∉ ld)

theorem takeWhile_not_newline_append (ld rest : List Char) (h : ('\n' : Char) ∉ ld) :
    (ld ++ '\n' :: rest).takeWhile (fun c => !(c == '\n')) = ld := by
  induction ld with
  | nil => simp [List.takeWhile_cons]
  | cons c l ih =>
    have hc : ¬(c = '\n') := fun hx => h (hx ▸ List.mem_cons_self c l)
    have hl : ('\n' : Char) ∉ l := fun hm => h (List.mem_cons_of_mem c hm)
    simp [List.takeWhile_cons, hc, ih hl]

theorem flush_good (chronoParse : String → Option Int) (now : Int) (id : String)
    (acc : List Char) (entries : List AuditEntry)
    (hent : ∀ e ∈ entries, GoodEntry e)
    (hacc : ∃ ld rest, acc = ld ++ '\n' :: rest ∧ matchBoundaryLine ld = some id.data ∧
      ('\n' : Char) ∉ ld) :
    ∀ e ∈ flushAcc chronoParse now id acc entries, GoodEntry e := by
  intro e he
  unfold flushAcc at he
  by_cases hg : trimStr acc ≠ []
  · rw [if_pos hg] at he
    rcases List.mem_append.mp he with hm | hm
    · exact hent e hm
    · have heq : e = createEntry chronoParse now id ⟨acc⟩ := by simpa using hm
      subst heq
      obtain ⟨ld, rest, hdecomp, hmb, hnl⟩ := hacc
      constructor
      · exact hg
      · show matchBoundaryLine (acc.takeWhile (fun c => !(c == '\n'))) = some id.data
        rw [hdecomp, takeWhile_not_newline_append ld rest hnl, hmb]
  · rw [if_neg hg] at he
    exact hent e he

theorem c10_step (chronoParse : String → Option Int) (now : Int)
    (st : ParseState) (line : String)
    (hnl : ('\n' : Char) ∉ line.data) (h : GoodState st) :
    GoodState (parseStep chronoParse now st line) := by
  obtain ⟨hent, hnone, hsome⟩ := h
  obtain ⟨cur, acc, ent⟩ := st
  cases hm : matchBoundaryLine line.data with
  | none =>
    cases cur with
    | none =>
      have hres : parseStep chronoParse now ⟨none, acc, ent⟩ line
          = ⟨none, acc, ent⟩ := by
        simp [parseStep, hm]
      rw [hres]
      exact ⟨hent, fun _ => hnone rfl, fun u hu => Option.noConfusion hu⟩
    | some c =>
      have hres : parseStep chronoParse now ⟨some c, acc, ent⟩ line
          = ⟨some c, acc ++ line.data ++ ['\n'], ent⟩ := by
        simp [parseStep, hm]
      rw [hres]
      refine ⟨hent, fun hcontra => Option.noConfusion hcontra, fun u hu => ?_⟩
      obtain ⟨ld, rest, hdec, hmb, hld⟩ := hsome c rfl
      replace hdec : acc = ld ++ '\n' :: rest := hdec
      injection hu with hcu
      subst hcu
      refine ⟨ld, rest ++ line.data ++ ['\n'], ?_, hmb, hld⟩
      rw [hdec]
      simp
  | some tok =>
    cases cur with
    | none =>
      have hacc : acc = [] := hnone rfl
      subst hacc
      have hres : parseStep chronoParse now ⟨none, [], ent⟩ line
          = ⟨some ⟨tok⟩, line.data ++ ['\n'], ent⟩ := by
        simp [parseStep, hm]
      rw [hres]
      refine ⟨hent, fun hcontra => Option.noConfusion hcontra, fun u hu => ?_⟩
      injection hu with hcu
      subst hcu
      exact ⟨line.data, [], rfl, hm, hnl⟩
    | some prev =>
      by_cases hid : (⟨tok⟩ : String) = prev
      · have hres : parseStep chronoParse now ⟨some prev, acc, ent⟩ line
            = ⟨some prev, acc ++ line.data ++ ['\n'], ent⟩ := by
          simp [parseStep, hm, hid]
        rw [hres]
        refine ⟨hent, fun hcontra => Option.noConfusion hcontra, fun u hu => ?_⟩
        obtain ⟨ld, rest, hdec, hmb, hld⟩ := hsome prev rfl
        replace hdec : acc = ld ++ '\n' :: rest := hdec
        injection hu with hcu
        subst hcu
        refine ⟨ld, rest ++ line.data ++ ['\n'], ?_, hmb, hld⟩
        rw [hdec]
        simp
      · have hres : parseStep chronoParse now ⟨some prev, acc, ent⟩ line
            = ⟨some ⟨tok⟩, line.data ++ ['\n'],
                flushAcc chronoParse now prev acc ent⟩ := by
          simp [parseStep, hm, hid]
        rw [hres]
        refine ⟨flush_good chronoParse now prev acc ent hent (hsome prev rfl),
          fun hcontra => Option.noConfusion hcontra, fun u hu => ?_⟩
        injection hu with hcu
        subst hcu
        exact ⟨line.data, [], rfl, hm, hnl⟩

theorem c10_fold (chronoParse : String → Option Int) (now : Int) :
    ∀ (lines : List String) (st : ParseState),
      (∀ l ∈ lines, ('\n' : Char) ∉ l.data) → GoodState st →
      GoodState (lines.foldl (parseStep chronoParse now) st) := by
  intro lines
  induction lines with
  | nil =>
    intro st _ h
    exact h
  | cons line rest ih =>
    intro st hnl h
    simp only [List.foldl_cons]
    exact ih (parseStep chronoParse now st line)
      (fun l hml => hnl l (List.mem_cons_of_mem _ hml))
      (c10_step chronoParse now st line (hnl line (by simp)) h)

/-- Claim C10: every record emitted by the assembler has non-blank raw text
whose first line is a boundary-marker line whose captured token equals that
record's chain id (the opening boundary line is always part of the record's
raw content).  The hypothesis states that the inputs are genuine lines,
i.e. contain no embedded `\n`, as `str::lines` guarantees. -/
theorem claim_C10_raw_first_line (chronoParse : String → Option Int) (now : Int)
    (lines : List String) (hnl : ∀ l ∈ lines, ('\n' : Char) ∉ l.data) :
    ∀ e ∈ parseEntriesList chronoParse now lines,
      trimStr e.raw_content.data ≠ [] ∧
      matchBoundaryLine (firstLineChars e.raw_content) = some e.audit_id.data := by
  intro e he
  have hfold := c10_fold chronoParse now lines ⟨none, [], []⟩ hnl
    ⟨fun e hm => absurd hm (by simp), fun _ => rfl, fun u hu => Option.noConfusion hu⟩
  unfold parseEntriesList parseFinish at he
  split at he
  case h_1 id heq =>
    exact flush_good chronoParse now id _ _ hfold.1 (hfold.2.2 id heq) e he
  case h_2 => exact hfold.1 e he

/-- The record extracted from a concrete two-line log for the C10 witness. -/
def c10Entry : AuditEntry := createEntry (fun _ => none) 0 "ab" "--ab-A--\nHost: x\n"

theorem claim_C10_witness :
    trimStr c10Entry.raw_content.data ≠ [] ∧
    matchBoundaryLine (firstLineChars c10Entry.raw_content) = some c10Entry.audit_id.data :=
  claim_C10_raw_first_line (fun _ => none) 0 ["--ab-A--", "Host: x"] (by decide)
    c10Entry (by decide)
